import Mathlib

/-!
Shallow embedding of the job-orchestration layer of BlenderSynth
(src/blendersynth/run/blender_threading.py): job splitting and chunking
(list_split / np.array_split), per-lane thread state and its polling
dynamics (check_in, check_status, process exit), the manager's loop
condition, and the report writer.  Machine integers are modelled as
Nat/Int; fallible construction returns Option.
-/

universe u

variable {α : Type u}

/-- Section sizes used by numpy's array_split: divmod(n, k) gives the base
section size and the number of extras; the first (n % k) sections get one
extra element. -/
def sectionSizes (n k : Nat) : List Nat :=
  List.replicate (n % k) (n / k + 1) ++ List.replicate (k - n % k) (n / k)

/-- Cut a list into consecutive chunks of the given sizes. -/
def splitSizes : List α → List Nat → List (List α)
  | _, [] => []
  | l, s :: rest => l.take s :: splitSizes (l.drop s) rest

/-- Model of np.array_split(l, k) for an integer section count k. -/
def arraySplit (l : List α) (k : Nat) : List (List α) :=
  splitSizes l (sectionSizes l.length k)

/-- list_split from blender_threading.py: `[[*x] for x in np.array_split(list, chunks)]`.
np.array_split raises ValueError unless the section count is positive;
that failure is modelled as none. -/
def list_split (l : List α) (chunks : Int) : Option (List (List α)) :=
  if chunks ≤ 0 then none else some (arraySplit l chunks.toNat)

/-- Ceiling division on Nat. -/
def ceilDivNat (n m : Nat) : Nat := (n + m - 1) / m

/-- np.ceil(n / M) for a Nat numerator and Python int M.  M = 0 raises
ZeroDivisionError (modelled as none); for M < 0 the quotient is
non-positive and its ceiling is -(n / |M|). -/
def npCeilDiv (n : Nat) (M : Int) : Option Int :=
  if M = 0 then none
  else if 0 < M then some (ceilDivNat n M.toNat)
  else some (-((n / M.natAbs : Nat) : Int))

/-- The chunking performed in BlenderThread.__init__:
`self.jobs = list_split(jobs, np.ceil(len(jobs)/MAX_PER_JOB))`.
none models the constructor raising an exception. -/
def BlenderThread_chunks (jobs : List α) (M : Int) : Option (List (List α)) :=
  (npCeilDiv jobs.length M).bind fun k => list_split jobs k

/-- BlenderThreadManager.__init__ constructs one BlenderThread per entry of
jsons (so the lane count is len(jsons)); manager construction fails iff
some thread construction fails.  There is no explicit validation of lane
count or batch size in the source. -/
def manager_init : List (List α) → Int → Option (List (List (List α)))
  | [], _ => some []
  | lane :: rest, M =>
    (BlenderThread_chunks lane M).bind fun c =>
      (manager_init rest M).bind fun cs => some (c :: cs)

/-- Runtime state of one BlenderThread (one lane).  procs records every
process ever spawned by the lane, newest first; an entry is true while
that process is still running (poll() is None).  job starts at -1;
prev_n and timer drive stall detection. -/
structure ThreadSt where
  njobs : Nat
  size : Nat
  timeout : Nat
  prev_n : Nat
  timer : Nat
  job : Int
  finished : Bool
  procs : List Bool
deriving DecidableEq

/-- BlenderThread.is_running: False when no process has been spawned yet
(self.process is None), otherwise whether the current process is still
running. -/
def is_running (t : ThreadSt) : Bool := t.procs.headD false

/-- BlenderThread.check_in: no-op while the current process runs; otherwise
advance the job index, finishing when past the last batch and starting
the next batch's process (start_job) otherwise. -/
def check_in (t : ThreadSt) : ThreadSt :=
  if is_running t then t
  else if (t.njobs : Int) ≤ t.job + 1 then
    { t with job := t.job + 1, finished := true }
  else
    { t with job := t.job + 1, procs := true :: t.procs }

/-- Environment event: the lane's current process exits (on its own, or via
BlenderThread.terminate, which calls process.kill()). -/
def procExit (t : ThreadSt) : ThreadSt :=
  { t with procs := match t.procs with
      | [] => []
      | _ :: rest => false :: rest }

/-- BlenderThread.check_status, with now the value of perf_counter() and n
the num_rendered count read from the lane's log.  Progress resets the
stall timer and the poll returns True; with no progress the poll returns
False once (now - timer) >= timeout, and True before that. -/
def check_status (now n : Nat) (t : ThreadSt) : Bool × ThreadSt :=
  if t.prev_n < n then (true, { t with prev_n := n, timer := now })
  else if t.timeout ≤ now - t.timer then (false, t)
  else (true, t)

/-- Per-thread body of one iteration of the polling loop in
BlenderThreadManager.start: skip finished threads, check_in, then either
report success (n == size) or poll check_status.  In the stalled branch
the source only prints "CANNOT DEAL WITH FAILED THREADS YET": no
terminate and no restart, so both check_status outcomes leave the state
produced by check_status. -/
def loopBodyThread (now n : Nat) (t : ThreadSt) : ThreadSt :=
  if t.finished then t
  else
    let t1 := check_in t
    if n = t1.size then t1
    else (check_status now n t1).2

/-- The while-condition of the polling loop in BlenderThreadManager.start:
`any(t.is_running for t in self.threads)`. -/
def loopCond (ts : List ThreadSt) : Bool := ts.any is_running

/-- A fresh BlenderThread state right after __init__: no process, job -1,
not finished, prev_n = 0, stall timer started at construction time t0. -/
def initThread (njobs size tmo t0 : Nat) : ThreadSt :=
  { njobs := njobs, size := size, timeout := tmo, prev_n := 0, timer := t0,
    job := -1, finished := false, procs := [] }

/-- One atomic event on a lane: a coordinator check_in, a check_status
poll, or the current process exiting. -/
inductive ThreadStep : ThreadSt → ThreadSt → Prop
  | checkIn (t : ThreadSt) : ThreadStep t (check_in t)
  | checkStat (now n : Nat) (t : ThreadSt) : ThreadStep t (check_status now n t).2
  | exitCur (t : ThreadSt) : ThreadStep t (procExit t)

/-- Reflexive-transitive closure of ThreadStep: the states a lane can reach. -/
inductive ThreadReach : ThreadSt → ThreadSt → Prop
  | refl (t : ThreadSt) : ThreadReach t t
  | step {a b c : ThreadSt} : ThreadReach a b → ThreadStep b c → ThreadReach a c

/-- Lane invariant: every process other than the current one has exited,
and a FINISHED lane has exhausted its batches and has no running
process. -/
def ThreadInv (t : ThreadSt) : Prop :=
  (∀ p ∈ t.procs.tail, p = false) ∧
  (t.finished = true → (t.njobs : Int) ≤ t.job ∧ is_running t = false)

/-- BlenderThreadManager.update_report, with timestamps abstracted to whole
seconds (the source formats floats and datetimes into the same six
fields).  Returns the new contents of the report file: the source opens
report_loc with mode 'w', which truncates, and then writes exactly the
report lines, so the previous contents prevFile never survive the call
and the guard num_rendered > 0 decides whether any content is written. -/
def update_report (prevFile : List String) (num_rendered total elapsed : Nat) :
    List String :=
  if 0 < num_rendered then
    ["Number of images rendered: " ++ toString num_rendered,
     "Total session quota: " ++ toString total,
     "Time elapsed: " ++ toString elapsed,
     "Time per render (s): " ++ toString (elapsed / num_rendered),
     "Session start and Estimated End"]
  else []

/-- The sizes handed to array_split have exactly k entries. -/
theorem sectionSizes_length (n k : Nat) (hk : 0 < k) :
    (sectionSizes n k).length = k := by
  have h1 : n % k < k := Nat.mod_lt _ hk
  simp only [sectionSizes, List.length_append, List.length_replicate]
  omega

/-- The sizes handed to array_split sum to the input length. -/
theorem sectionSizes_sum (n k : Nat) (hk : 0 < k) :
    (sectionSizes n k).sum = n := by
  have h1 : n % k < k := Nat.mod_lt _ hk
  have h2 : n % k * (n / k) ≤ k * (n / k) :=
    Nat.mul_le_mul_right _ (le_of_lt h1)
  have h3 : k * (n / k) + n % k = n := Nat.div_add_mod n k
  simp only [sectionSizes, List.sum_append, List.sum_replicate, smul_eq_mul]
  calc n % k * (n / k + 1) + (k - n % k) * (n / k)
      = n % k * (n / k) + n % k + (k * (n / k) - n % k * (n / k)) := by
        rw [Nat.mul_add, Nat.mul_one, Nat.sub_mul]
    _ = n % k * (n / k) + (k * (n / k) - n % k * (n / k)) + n % k := by
        rw [Nat.add_right_comm]
    _ = k * (n / k) + n % k := by rw [Nat.add_sub_cancel' h2]
    _ = n := h3

/-- Every array_split section size is either n / k or n / k + 1, the latter
only when k does not divide n. -/
theorem mem_sectionSizes {n k x : Nat} (hx : x ∈ sectionSizes n k) :
    x = n / k ∨ (x = n / k + 1 ∧ n % k ≠ 0) := by
  rcases List.mem_append.mp hx with h | h
  · rcases (List.mem_replicate.mp h) with ⟨hne, hxe⟩
    exact Or.inr ⟨hxe, hne⟩
  · exact Or.inl (List.eq_of_mem_replicate h)

/-- splitSizes returns one chunk per requested size. -/
theorem splitSizes_length (szs : List Nat) :
    ∀ l : List α, (splitSizes l szs).length = szs.length := by
  induction szs with
  | nil => intro l; simp [splitSizes]
  | cons s rest ih => intro l; simp [splitSizes, ih]

/-- Concatenating the chunks recovers a prefix of the input of length the
sum of the sizes. -/
theorem splitSizes_flatten (szs : List Nat) :
    ∀ l : List α, (splitSizes l szs).flatten = l.take szs.sum := by
  induction szs with
  | nil => intro l; simp [splitSizes]
  | cons s rest ih =>
    intro l
    simp only [splitSizes, List.flatten_cons, ih, List.sum_cons]
    rw [List.take_add]

/-- When the sizes fit inside the input, the chunks have exactly the
requested lengths. -/
theorem splitSizes_map_length (szs : List Nat) :
    ∀ l : List α, szs.sum ≤ l.length →
      (splitSizes l szs).map List.length = szs := by
  induction szs with
  | nil => intro l _; simp [splitSizes]
  | cons s rest ih =>
    intro l h
    simp only [List.sum_cons] at h
    have hs : s ≤ l.length := le_trans (Nat.le_add_right _ _) h
    simp only [splitSizes, List.map_cons, List.length_take]
    rw [min_eq_left hs, ih (l.drop s) (by simp only [List.length_drop]; omega)]

/-- array_split with a positive section count returns that many sections. -/
theorem arraySplit_length (l : List α) (k : Nat) (hk : 0 < k) :
    (arraySplit l k).length = k := by
  rw [arraySplit, splitSizes_length, sectionSizes_length _ _ hk]

/-- Concatenating array_split's sections recovers the input list. -/
theorem arraySplit_flatten (l : List α) (k : Nat) (hk : 0 < k) :
    (arraySplit l k).flatten = l := by
  rw [arraySplit, splitSizes_flatten, sectionSizes_sum _ _ hk, List.take_length]

/-- The section lengths of array_split are exactly the planned sizes. -/
theorem arraySplit_map_length (l : List α) (k : Nat) (hk : 0 < k) :
    (arraySplit l k).map List.length = sectionSizes l.length k := by
  exact splitSizes_map_length _ _ (le_of_eq (sectionSizes_sum _ _ hk))

/-- Each section of array_split has length n / k or n / k + 1 (the latter
only when k does not divide n): array_split balances sizes. -/
theorem arraySplit_mem_length {l : List α} {k : Nat} (hk : 0 < k)
    {c : List α} (hc : c ∈ arraySplit l k) :
    c.length = l.length / k ∨
      (c.length = l.length / k + 1 ∧ l.length % k ≠ 0) := by
  have hmem : c.length ∈ (arraySplit l k).map List.length :=
    List.mem_map_of_mem _ hc
  rw [arraySplit_map_length l k hk] at hmem
  exact mem_sectionSizes hmem

/-- Ceiling division of a positive numerator is positive. -/
theorem ceilDivNat_pos {n m : Nat} (hn : 0 < n) (hm : 0 < m) :
    0 < ceilDivNat n m := by
  have h := (Nat.one_le_div_iff hm).mpr (show m ≤ n + m - 1 by omega)
  rw [ceilDivNat]
  omega

/-- ceil(n / m) sections of size m cover n elements. -/
theorem le_ceilDivNat_mul (n m : Nat) (hm : 0 < m) :
    n ≤ ceilDivNat n m * m := by
  have h := Nat.div_add_mod (n + m - 1) m
  have hr : (n + m - 1) % m < m := Nat.mod_lt _ hm
  rw [ceilDivNat, Nat.mul_comm]
  omega

/-- For positive n and m, ceil(n / m) never exceeds n. -/
theorem ceilDivNat_le {n m : Nat} (hn : 0 < n) (hm : 0 < m) :
    ceilDivNat n m ≤ n := by
  rw [ceilDivNat, Nat.div_le_iff_le_mul_add_pred hm]
  have h : n ≤ m * n := Nat.le_mul_of_pos_left n hm
  omega

/-- With a non-empty job list and positive batch size, the BlenderThread
chunking succeeds and is array_split with ceil(n / M) sections. -/
theorem BlenderThread_chunks_pos (jobs : List α) (M : Int)
    (hne : jobs ≠ []) (hM : 0 < M) :
    BlenderThread_chunks jobs M =
      some (arraySplit jobs (ceilDivNat jobs.length M.toNat)) := by
  have hn : 0 < jobs.length := List.length_pos.mpr hne
  have hM' : 0 < M.toNat := by omega
  have hk : 0 < ceilDivNat jobs.length M.toNat := ceilDivNat_pos hn hM'
  unfold BlenderThread_chunks npCeilDiv list_split
  rw [if_neg (by omega), if_pos hM]
  simp only [Option.some_bind]
  rw [if_neg (by omega), Int.toNat_ofNat]

/-- BlenderThread construction fails exactly for a non-positive batch size
or an empty job list (np.array_split then gets a non-positive section
count, or the int division raises). -/
theorem BlenderThread_chunks_eq_none_iff (lane : List α) (M : Int) :
    BlenderThread_chunks lane M = none ↔ M ≤ 0 ∨ lane = [] := by
  rcases lt_trichotomy M 0 with hM | hM | hM
  · constructor
    · intro _; exact Or.inl (le_of_lt hM)
    · intro _
      unfold BlenderThread_chunks npCeilDiv list_split
      rw [if_neg (by omega), if_neg (by omega)]
      simp only [Option.some_bind]
      rw [if_pos (neg_nonpos.mpr (Int.natCast_nonneg _))]
  · subst hM
    simp only [BlenderThread_chunks, npCeilDiv, if_pos rfl, Option.none_bind]
    exact ⟨fun _ => Or.inl le_rfl, fun _ => rfl⟩
  · by_cases hlane : lane = []
    · subst hlane
      have h0 : ceilDivNat 0 M.toNat = 0 := by
        rw [ceilDivNat]
        exact Nat.div_eq_of_lt (by omega)
      unfold BlenderThread_chunks npCeilDiv list_split
      rw [if_neg (by omega), if_pos hM]
      simp only [List.length_nil, Option.some_bind, h0]
      rw [if_pos (by omega)]
      simp
    · rw [BlenderThread_chunks_pos lane M hlane hM]
      simp only [Option.some_ne_none, false_iff]
      push_neg
      exact ⟨by omega, hlane⟩

/-- A list whose tail is all-false has at most one true entry. -/
theorem count_true_le_one {l : List Bool} (h : ∀ p ∈ l.tail, p = false) :
    l.count true ≤ 1 := by
  cases l with
  | nil => simp
  | cons b tl =>
    simp only [List.tail_cons] at h
    have htl : tl.count true = 0 := by
      rw [List.count_eq_zero]
      intro hmem
      simpa using h _ hmem
    rw [List.count_cons]
    cases b <;> simp [htl]

/-- When the lane has no running process, every spawned process has
exited. -/
theorem procs_all_false {t : ThreadSt} (htail : ∀ p ∈ t.procs.tail, p = false)
    (hr : is_running t = false) : ∀ p ∈ t.procs, p = false := by
  intro p hp
  rcases hcase : t.procs with _ | ⟨b, rest⟩
  · rw [hcase] at hp; simp at hp
  · rw [hcase] at hp htail
    have hb : b = false := by
      rw [is_running, hcase] at hr
      simpa using hr
    simp only [List.tail_cons] at htail
    rcases List.mem_cons.mp hp with rfl | hmem
    · exact hb
    · exact htail _ hmem

/-- The invariant holds of a freshly constructed thread. -/
theorem threadInv_init (njobs size tmo t0 : Nat) :
    ThreadInv (initThread njobs size tmo t0) := by
  constructor
  · intro p hp; simp [initThread] at hp
  · intro hf; simp [initThread] at hf

/-- check_in preserves the lane invariant. -/
theorem threadInv_check_in {t : ThreadSt} (h : ThreadInv t) :
    ThreadInv (check_in t) := by
  obtain ⟨htail, hfin⟩ := h
  by_cases hr : is_running t = true
  · rw [check_in, if_pos hr]; exact ⟨htail, hfin⟩
  · have hr' : is_running t = false := by simpa using hr
    rw [check_in, if_neg hr]
    by_cases hj : (t.njobs : Int) ≤ t.job + 1
    · rw [if_pos hj]
      exact ⟨htail, fun _ => ⟨hj, hr'⟩⟩
    · rw [if_neg hj]
      constructor
      · intro p hp
        simp only [List.tail_cons] at hp
        exact procs_all_false htail hr' _ hp
      · intro hf
        exact absurd ((hfin hf).1) (by omega)

/-- A process exit preserves the lane invariant. -/
theorem threadInv_procExit {t : ThreadSt} (h : ThreadInv t) :
    ThreadInv (procExit t) := by
  obtain ⟨htail, hfin⟩ := h
  rcases hcase : t.procs with _ | ⟨b, rest⟩
  · constructor
    · intro p hp
      simp [procExit, hcase] at hp
    · intro hf
      refine ⟨(hfin hf).1, ?_⟩
      simp [procExit, is_running, hcase]
  · constructor
    · intro p hp
      simp only [procExit, hcase, List.tail_cons] at hp
      have h2 := htail
      rw [hcase] at h2
      simp only [List.tail_cons] at h2
      exact h2 _ hp
    · intro hf
      refine ⟨(hfin hf).1, ?_⟩
      simp [procExit, is_running, hcase]

/-- A check_status poll preserves the lane invariant (it only touches
prev_n and timer). -/
theorem threadInv_check_status {t : ThreadSt} (h : ThreadInv t) (now n : Nat) :
    ThreadInv (check_status now n t).2 := by
  obtain ⟨htail, hfin⟩ := h
  unfold check_status
  by_cases h1 : t.prev_n < n
  · rw [if_pos h1]
    exact ⟨htail, fun hf => ⟨(hfin hf).1, (hfin hf).2⟩⟩
  · rw [if_neg h1]
    by_cases h2 : t.timeout ≤ now - t.timer
    · rw [if_pos h2]; exact ⟨htail, hfin⟩
    · rw [if_neg h2]; exact ⟨htail, hfin⟩

/-- Every atomic lane event preserves the invariant. -/
theorem threadInv_step {a b : ThreadSt} (h : ThreadInv a) (hs : ThreadStep a b) :
    ThreadInv b := by
  cases hs with
  | checkIn t => exact threadInv_check_in h
  | checkStat now n t => exact threadInv_check_status h now n
  | exitCur t => exact threadInv_procExit h

/-- Every state a lane reaches from construction satisfies the invariant. -/
theorem threadInv_reach {njobs size tmo t0 : Nat} {t : ThreadSt}
    (h : ThreadReach (initThread njobs size tmo t0) t) : ThreadInv t := by
  induction h with
  | refl => exact threadInv_init njobs size tmo t0
  | step hr hs ih => exact threadInv_step ih hs

set_option maxRecDepth 20000 in
/-- C1, counterexample: chunking a 125-job lane with MAX_PER_JOB = 100
produces batch sizes [63, 62] (np.array_split balances the two sections),
not the claimed [100, 25]. -/
theorem C1_counterexample :
    (BlenderThread_chunks (List.range 125) (100 : Int)).map
        (fun cs => cs.map List.length) = some [63, 62] ∧
    (BlenderThread_chunks (List.range 125) (100 : Int)).map
        (fun cs => cs.map List.length) ≠ some [100, 25] := by
  constructor
  · rfl
  · intro h
    rw [show (BlenderThread_chunks (List.range 125) (100 : Int)).map
        (fun cs => cs.map List.length) = some [63, 62] from rfl] at h
    simp at h

/-- C1 (amended): for a non-empty lane of n jobs and max-batch-size M > 0,
chunking succeeds and produces ceil(n/M) batches whose concatenation in
order reconstructs the lane exactly; the batch sizes are as equal as
possible (each is n/k or n/k + 1 for k = ceil(n/M)), so every batch is
non-empty and of size at most M — but batches are not of size exactly M
except the last. -/
theorem C1_chunking_balanced (jobs : List α) (M : Int)
    (hne : jobs ≠ []) (hM : 0 < M) :
    ∃ chunks, BlenderThread_chunks jobs M = some chunks ∧
      chunks.length = ceilDivNat jobs.length M.toNat ∧
      chunks.flatten = jobs ∧
      (∀ c ∈ chunks,
        c.length = jobs.length / ceilDivNat jobs.length M.toNat ∨
        c.length = jobs.length / ceilDivNat jobs.length M.toNat + 1) ∧
      (∀ c ∈ chunks, c.length ≤ M.toNat ∧ c ≠ []) := by
  have hn : 0 < jobs.length := List.length_pos.mpr hne
  have hM' : 0 < M.toNat := by omega
  set k := ceilDivNat jobs.length M.toNat with hkdef
  have hk : 0 < k := ceilDivNat_pos hn hM'
  have hkn : k ≤ jobs.length := ceilDivNat_le hn hM'
  have hcov : jobs.length ≤ k * M.toNat := le_ceilDivNat_mul _ _ hM'
  refine ⟨arraySplit jobs k,
    BlenderThread_chunks_pos jobs M hne hM,
    arraySplit_length _ _ hk, arraySplit_flatten _ _ hk, ?_, ?_⟩
  · intro c hc
    rcases arraySplit_mem_length hk hc with h | ⟨h, _⟩
    exacts [Or.inl h, Or.inr h]
  · intro c hc
    have h1 : 1 ≤ jobs.length / k := (Nat.one_le_div_iff hk).mpr hkn
    have hdiv_le : jobs.length / k ≤ M.toNat := by
      rw [Nat.div_le_iff_le_mul_add_pred hk]
      omega
    rcases arraySplit_mem_length hk hc with h | ⟨h, hmod⟩
    · refine ⟨by omega, fun hnil => ?_⟩
      rw [hnil] at h
      simp at h
      omega
    · have hlt : jobs.length < k * M.toNat := by
        rcases Nat.lt_or_ge jobs.length (k * M.toNat) with hl | hgeq
        · exact hl
        · exfalso
          apply hmod
          have heq : jobs.length = k * M.toNat := le_antisymm hcov hgeq
          rw [heq, Nat.mul_mod_right]
      have hstrict : jobs.length / k < M.toNat := by
        rw [Nat.div_lt_iff_lt_mul hk, Nat.mul_comm]
        exact hlt
      refine ⟨by omega, fun hnil => ?_⟩
      rw [hnil] at h
      simp at h

/-- C1, witness for the amended theorem at jobs = [0, 1, 2], M = 2. -/
theorem C1_chunking_balanced_witness :
    ([0, 1, 2] : List Nat) ≠ [] ∧ (0 : Int) < 2 ∧
    (∃ chunks, BlenderThread_chunks ([0, 1, 2] : List Nat) 2 = some chunks ∧
      chunks.length = ceilDivNat ([0, 1, 2] : List Nat).length (2 : Int).toNat ∧
      chunks.flatten = [0, 1, 2] ∧
      (∀ c ∈ chunks,
        c.length = ([0, 1, 2] : List Nat).length /
          ceilDivNat ([0, 1, 2] : List Nat).length (2 : Int).toNat ∨
        c.length = ([0, 1, 2] : List Nat).length /
          ceilDivNat ([0, 1, 2] : List Nat).length (2 : Int).toNat + 1) ∧
      (∀ c ∈ chunks, c.length ≤ (2 : Int).toNat ∧ c ≠ [])) :=
  ⟨by decide, by decide,
   C1_chunking_balanced [0, 1, 2] 2 (by decide) (by decide)⟩

/-- C3, counterexample: with zero lanes and maxPerBatch = 0 (both
"non-positive"), manager construction succeeds with an empty thread list
instead of failing with any configuration error. -/
theorem C3_counterexample :
    manager_init ([] : List (List Nat)) 0 = some [] := rfl

/-- C3 (amended): there is no dedicated InvalidConfiguration check.  With
at least one lane, a non-positive maxPerBatch makes construction fail
fast (a generic exception from the chunking step) before the run loop;
with a zero lane count construction succeeds with no threads; and with
positive maxPerBatch and non-empty lanes construction succeeds. -/
theorem C3_no_invalid_configuration (jsons : List (List α)) (M : Int) :
    (jsons ≠ [] → M ≤ 0 → manager_init jsons M = none) ∧
    (0 < M → (∀ lane ∈ jsons, lane ≠ []) →
      ∃ r, manager_init jsons M = some r) := by
  constructor
  · intro hne hM
    cases jsons with
    | nil => exact absurd rfl hne
    | cons lane rest =>
      have hnone : BlenderThread_chunks lane M = none :=
        (BlenderThread_chunks_eq_none_iff lane M).mpr (Or.inl hM)
      simp [manager_init, hnone]
  · intro hM hlanes
    induction jsons with
    | nil => exact ⟨[], rfl⟩
    | cons lane rest ih =>
      have hlane : lane ≠ [] := hlanes lane (List.mem_cons_self _ _)
      obtain ⟨r, hr⟩ := ih fun l hl => hlanes l (List.mem_cons_of_mem _ hl)
      refine ⟨arraySplit lane (ceilDivNat lane.length M.toNat) :: r, ?_⟩
      simp [manager_init, BlenderThread_chunks_pos lane M hlane hM, hr]

/-- C3, witness for the amended theorem at one lane [[0]] and M = 0. -/
theorem C3_no_invalid_configuration_witness :
    (([[0]] : List (List Nat)) ≠ [] → (0 : Int) ≤ 0 →
      manager_init ([[0]] : List (List Nat)) 0 = none) ∧
    ((0 : Int) < 0 → (∀ lane ∈ ([[0]] : List (List Nat)), lane ≠ []) →
      ∃ r, manager_init ([[0]] : List (List Nat)) 0 = some r) :=
  C3_no_invalid_configuration [[0]] 0

/-- C6 (confirmed): list_split with a positive lane count L produces L
lanes whose sizes differ by at most one and whose in-order concatenation
is exactly the input list: an order-preserving partition with no job
duplicated or dropped. -/
theorem C6_lane_split (l : List α) (L : Int) (hL : 0 < L) :
    ∃ lanes, list_split l L = some lanes ∧
      lanes.length = L.toNat ∧
      lanes.flatten = l ∧
      (∀ a ∈ lanes, a.length = l.length / L.toNat ∨
        a.length = l.length / L.toNat + 1) ∧
      (∀ a ∈ lanes, ∀ b ∈ lanes, a.length ≤ b.length + 1) := by
  have hL' : 0 < L.toNat := by omega
  refine ⟨arraySplit l L.toNat, ?_, arraySplit_length _ _ hL',
    arraySplit_flatten _ _ hL', ?_, ?_⟩
  · rw [list_split, if_neg (by omega)]
  · intro a ha
    rcases arraySplit_mem_length hL' ha with h | ⟨h, _⟩
    exacts [Or.inl h, Or.inr h]
  · intro a ha b hb
    rcases arraySplit_mem_length hL' ha with h1 | ⟨h1, _⟩ <;>
      rcases arraySplit_mem_length hL' hb with h2 | ⟨h2, _⟩ <;> omega

/-- C6, witness at input [0, 1, 2] and L = 2 lanes. -/
theorem C6_lane_split_witness :
    ∃ lanes, list_split ([0, 1, 2] : List Nat) (2 : Int) = some lanes ∧
      lanes.length = (2 : Int).toNat ∧
      lanes.flatten = [0, 1, 2] ∧
      (∀ a ∈ lanes, a.length = ([0, 1, 2] : List Nat).length / (2 : Int).toNat ∨
        a.length = ([0, 1, 2] : List Nat).length / (2 : Int).toNat + 1) ∧
      (∀ a ∈ lanes, ∀ b ∈ lanes, a.length ≤ b.length + 1) :=
  C6_lane_split [0, 1, 2] 2 (by decide)

/-- C10 (confirmed): a BlenderThread over an empty jobs list cannot be
constructed: np.ceil(0 / M) = 0 sections are requested and
np.array_split rejects a non-positive section count, so chunking is not
total on empty lanes. -/
theorem C10_empty_jobs (M : Int) (hM : 0 < M) :
    BlenderThread_chunks ([] : List α) M = none := by
  have h0 : ceilDivNat 0 M.toNat = 0 := by
    rw [ceilDivNat]
    exact Nat.div_eq_of_lt (by omega)
  unfold BlenderThread_chunks npCeilDiv list_split
  rw [if_neg (by omega), if_pos hM]
  simp only [List.length_nil, Option.some_bind, h0]
  rw [if_pos (by omega)]

/-- C10, witness at M = 100. -/
theorem C10_empty_jobs_witness :
    (0 : Int) < 100 ∧ BlenderThread_chunks ([] : List Nat) 100 = none :=
  ⟨by decide, C10_empty_jobs 100 (by decide)⟩

/-- C2 (code bug, evaluated at the failing input): take a lane on its
first batch (reached by one check_in from construction, timeout 100)
whose process is running but has rendered nothing by time 200.
check_status reports the stall (returns false), yet the loop body leaves
the lane state completely unchanged: the stalled process is neither
terminated nor restarted (the source only prints
"CANNOT DEAL WITH FAILED THREADS YET"), so it stays running. -/
theorem C2_stall_not_restarted :
    (check_status 200 0 (check_in (initThread 1 10 100 0))).1 = false ∧
    loopBodyThread 200 0 (check_in (initThread 1 10 100 0)) =
      check_in (initThread 1 10 100 0) ∧
    is_running (loopBodyThread 200 0 (check_in (initThread 1 10 100 0))) = true :=
  ⟨by decide, by decide, by decide⟩

/-- C4, counterexample: a single lane of one batch, whose process was
started by the initial check_in and has since exited, is reachable; the
polling loop's condition any(t.is_running) is then false — the loop
exits — although the lane's finished flag is still False. -/
theorem C4_counterexample :
    ThreadReach (initThread 1 1 100 0)
      (procExit (check_in (initThread 1 1 100 0))) ∧
    loopCond [procExit (check_in (initThread 1 1 100 0))] = false ∧
    (procExit (check_in (initThread 1 1 100 0))).finished = false :=
  ⟨ThreadReach.step (ThreadReach.step (ThreadReach.refl _) (ThreadStep.checkIn _))
      (ThreadStep.exitCur _),
    by decide, by decide⟩

/-- C4 (amended): the polling loop in start() terminates exactly when no
lane's current process is running (the condition is any(t.is_running),
not the finished flags).  Every lane FINISHED implies the loop exits,
but at exit a lane may still have finished = False — its last batch's
process exited without a further check_in. -/
theorem C4_loop_exit (ts : List ThreadSt)
    (h : ∀ t ∈ ts, ∃ njobs size tmo t0,
      ThreadReach (initThread njobs size tmo t0) t) :
    (loopCond ts = false ↔ ∀ t ∈ ts, is_running t = false) ∧
    ((∀ t ∈ ts, t.finished = true) → loopCond ts = false) := by
  have hiff : loopCond ts = false ↔ ∀ t ∈ ts, is_running t = false := by
    simp [loopCond, List.any_eq_false]
  refine ⟨hiff, fun hfin => hiff.mpr fun t ht => ?_⟩
  obtain ⟨njobs, size, tmo, t0, hr⟩ := h t ht
  exact ((threadInv_reach hr).2 (hfin t ht)).2

/-- C4, witness for the amended theorem at a single just-constructed lane. -/
theorem C4_loop_exit_witness :
    (∀ t ∈ [initThread 1 1 100 0], ∃ njobs size tmo t0,
      ThreadReach (initThread njobs size tmo t0) t) ∧
    ((loopCond [initThread 1 1 100 0] = false ↔
      ∀ t ∈ [initThread 1 1 100 0], is_running t = false) ∧
    ((∀ t ∈ [initThread 1 1 100 0], t.finished = true) →
      loopCond [initThread 1 1 100 0] = false)) :=
  ⟨fun t ht => ⟨1, 1, 100, 0, by
      rw [List.mem_singleton] at ht
      rw [ht]
      exact ThreadReach.refl _⟩,
    C4_loop_exit [initThread 1 1 100 0] fun t ht => ⟨1, 1, 100, 0, by
      rw [List.mem_singleton] at ht
      rw [ht]
      exact ThreadReach.refl _⟩⟩

/-- C5, counterexample: at the exact boundary — no progress and the time
since the last observed increase equal to the timeout (100s) — the code
already returns False, although that elapsed time does not (strictly)
exceed the timeout, so this is not a "prior poll" returning true. -/
theorem C5_counterexample :
    (check_status 100 0 (check_in (initThread 1 10 100 0))).1 = false ∧
    ¬ ((check_in (initThread 1 10 100 0)).timeout <
        100 - (check_in (initThread 1 10 100 0)).timer) :=
  ⟨by decide, by decide⟩

/-- C5 (amended): one check_status poll at time now observing count n:
if the count increased since the previous poll the stall timer is reset
to now and the poll returns true; with no increase the poll returns
false exactly when the time since the last observed increase reaches or
exceeds the timeout, and returns true (leaving the state unchanged)
before that. -/
theorem C5_check_status (now n : Nat) (t : ThreadSt) :
    ((check_status now n t).1 = false ↔
      (n ≤ t.prev_n ∧ t.timeout ≤ now - t.timer)) ∧
    (t.prev_n < n →
      check_status now n t = (true, { t with prev_n := n, timer := now })) ∧
    (n ≤ t.prev_n → (check_status now n t).2 = t) := by
  unfold check_status
  by_cases h1 : t.prev_n < n
  · rw [if_pos h1]
    exact ⟨by simp; omega, fun _ => rfl, fun h => absurd h1 (by omega)⟩
  · rw [if_neg h1]
    by_cases h2 : t.timeout ≤ now - t.timer
    · rw [if_pos h2]
      exact ⟨by simp; omega, fun h => absurd h h1, fun _ => rfl⟩
    · rw [if_neg h2]
      exact ⟨by simp; omega, fun h => absurd h h1, fun _ => rfl⟩

/-- C5, witness for the amended theorem at now = 5, n = 3, a fresh lane. -/
theorem C5_check_status_witness :
    ((check_status 5 3 (initThread 1 10 100 0)).1 = false ↔
      (3 ≤ (initThread 1 10 100 0).prev_n ∧
        (initThread 1 10 100 0).timeout ≤ 5 - (initThread 1 10 100 0).timer)) ∧
    ((initThread 1 10 100 0).prev_n < 3 →
      check_status 5 3 (initThread 1 10 100 0) =
        (true, { initThread 1 10 100 0 with prev_n := 3, timer := 5 })) ∧
    (3 ≤ (initThread 1 10 100 0).prev_n →
      (check_status 5 3 (initThread 1 10 100 0)).2 = initThread 1 10 100 0) :=
  C5_check_status 5 3 (initThread 1 10 100 0)

/-- C7, counterexample: calling update_report with completed count 0 while
the report file already holds content does not leave the file unchanged:
the file is opened with mode 'w' (truncating) and zero lines are
written, so the previous content is destroyed and the file is empty. -/
theorem C7_counterexample :
    update_report ["Number of images rendered: 5"] 0 10 7 = [] ∧
    update_report ["Number of images rendered: 5"] 0 10 7 ≠
      ["Number of images rendered: 5"] :=
  ⟨rfl, by simp [update_report]⟩

/-- C7 (amended): with completed count 0 update_report writes no report
content, but the file is still truncated to empty (previous content at
the path does not survive); report content is written exactly when the
completed count is positive, and the resulting file content never
depends on what the file held before. -/
theorem C7_update_report (prev prev' : List String) (n total elapsed : Nat) :
    (n = 0 → update_report prev n total elapsed = []) ∧
    (0 < n → update_report prev n total elapsed ≠ []) ∧
    update_report prev n total elapsed = update_report prev' n total elapsed := by
  unfold update_report
  rcases Nat.eq_zero_or_pos n with h | h
  · subst h
    simp
  · rw [if_pos h]
    exact ⟨fun h0 => absurd h0 (by omega), fun _ => by simp, rfl⟩

/-- C7, witness for the amended theorem at two different previous file
contents and n = 2. -/
theorem C7_update_report_witness :
    ((2 : Nat) = 0 → update_report ["old"] 2 4 6 = []) ∧
    (0 < 2 → update_report ["old"] 2 4 6 ≠ []) ∧
    update_report ["old"] 2 4 6 = update_report [] 2 4 6 :=
  C7_update_report ["old"] [] 2 4 6

/-- C8 (confirmed): in every reachable lane state at most one spawned
process is alive, and check_in is a no-op while the current process
runs — so within a lane the process for batch i+1 is started only after
the process for batch i has exited, and batches execute strictly
sequentially. -/
theorem C8_sequential (njobs size tmo t0 : Nat) (t : ThreadSt)
    (h : ThreadReach (initThread njobs size tmo t0) t) :
    t.procs.count true ≤ 1 ∧ (is_running t = true → check_in t = t) := by
  have hinv := threadInv_reach h
  refine ⟨count_true_le_one hinv.1, fun hr => ?_⟩
  rw [check_in, if_pos hr]

/-- C8, witness: the lane reached by one check_in from construction. -/
theorem C8_sequential_witness :
    (check_in (initThread 2 5 100 0)).procs.count true ≤ 1 ∧
    (is_running (check_in (initThread 2 5 100 0)) = true →
      check_in (check_in (initThread 2 5 100 0)) =
        check_in (initThread 2 5 100 0)) :=
  C8_sequential 2 5 100 0 _
    (ThreadReach.step (ThreadReach.refl _) (ThreadStep.checkIn _))

/-- C9 (confirmed): the finished flag is absorbing — in every reachable
lane state with finished = True, a further check_in leaves finished True
and spawns no process (the procs history is unchanged, so start_job is
not invoked). -/
theorem C9_finished_absorbing (njobs size tmo t0 : Nat) (t : ThreadSt)
    (h : ThreadReach (initThread njobs size tmo t0) t)
    (hf : t.finished = true) :
    (check_in t).finished = true ∧ (check_in t).procs = t.procs := by
  have hinv := threadInv_reach h
  obtain ⟨hj, hr⟩ := hinv.2 hf
  rw [check_in, if_neg (by simp [hr]), if_pos (by omega)]
  exact ⟨rfl, rfl⟩

/-- C9, witness: a lane with zero batches finishes on its first check_in;
the next check_in keeps it finished and spawns nothing. -/
theorem C9_finished_absorbing_witness :
    (check_in (initThread 0 0 100 0)).finished = true ∧
    ((check_in (check_in (initThread 0 0 100 0))).finished = true ∧
      (check_in (check_in (initThread 0 0 100 0))).procs =
        (check_in (initThread 0 0 100 0)).procs) :=
  ⟨by decide,
    C9_finished_absorbing 0 0 100 0 _
      (ThreadReach.step (ThreadReach.refl _) (ThreadStep.checkIn _))
      (by decide)⟩
